import Mathlib

set_option maxHeartbeats 1000000

/-- Shallow embedding of a Python configuration value as handled by
`step.__dict_to_list` (src/pySDC/Step.py): a scalar object (`base` covers
numbers, tuples, classes, ...), a dictionary (association list in insertion
order), or a Python list.  The only type inspection the source performs is
`type(v) is list`, which corresponds to the `plist` constructor. -/
inductive PyVal (γ : Type) : Type where
  | base : γ → PyVal γ
  | dict : List (String × PyVal γ) → PyVal γ
  | plist : List (PyVal γ) → PyVal γ

/-- A Python dictionary with string keys, in insertion order. -/
abbrev PyDict (γ : Type) : Type := List (String × PyVal γ)

/-- Python dictionary lookup `d[k]` (first, hence unique, entry with the key). -/
def alookup {κ ν : Type} [DecidableEq κ] : List (κ × ν) → κ → Option ν
  | [], _ => none
  | p :: r, k => if k = p.1 then some p.2 else alookup r k

/-- Python dictionary assignment `d[k] = v`: overwrite in place when the key
exists, append otherwise. -/
def dictSet {κ ν : Type} [DecidableEq κ] (d : List (κ × ν)) (k : κ) (v : ν) : List (κ × ν) :=
  if k ∈ d.map Prod.fst then d.map (fun p => if p.1 = k then (k, v) else p) else d ++ [(k, v)]

/-- Effectful map over a list in the `Except` monad; embeds Python `for` loops
whose body may raise. -/
def mapME {β γ : Type} (f : β → Except String γ) : List β → Except String (List γ)
  | [] => Except.ok []
  | x :: xs => do
    let y ← f x
    let ys ← mapME f xs
    Except.ok (y :: ys)

/-- Message of the `sys.exit` call in `step.__dict_to_list`
(src/pySDC/Step.py:170); the source interpolates the offending key and list
into the text, which we keep as a fixed string. -/
def exitMessage : String := "All lists in cparams need to be of length 1 or max_val"

/-- First loop of `step.__dict_to_list` (src/pySDC/Step.py:165-171): scan the
dictionary tracking the running maximum list length `max_val`, calling
`sys.exit` when the guard `len(v) > 1 and (max_val > 1 and len(v) is not
max_val)` fires.  The `is not` test is object identity, not numeric
inequality: CPython interns the ints -5..256, so for lengths up to 256 the
two objects are identical exactly when the numbers are equal, while each
`len()` call on a longer list builds a fresh int object that is never
identical to the stored `max_val` even when numerically equal.  The identity
test is therefore embedded as `len(v) = max_val ∧ len(v) ≤ 256`. -/
def maxValLoop {γ : Type} : List (String × PyVal γ) → Nat → Except String Nat
  | [], m => Except.ok m
  | p :: r, m =>
    match p.2 with
    | PyVal.plist v =>
      if v.length > 1 ∧ m > 1 ∧ ¬(v.length = m ∧ v.length ≤ 256) then Except.error exitMessage
      else maxValLoop r (max m v.length)
    | _ => maxValLoop r m

/-- Body of the fill loop of `step.__dict_to_list` (src/pySDC/Step.py:175-182):
a non-list value is copied, a length-1 list is broadcast via `v[0]`, any other
list is indexed as `v[d]` (IndexError when out of range). -/
def fillEntry {γ : Type} (d : Nat) (p : String × PyVal γ) : Except String (String × PyVal γ) :=
  match p.2 with
  | PyVal.plist v =>
    match v.get? (if v.length = 1 then 0 else d) with
    | some x => Except.ok (p.1, x)
    | none => Except.error "IndexError"
  | _ => Except.ok p

/-- `step.__dict_to_list` (src/pySDC/Step.py:154-183): convert a dictionary of
lists into a list of dictionaries, one per level. -/
def dict_to_list {γ : Type} (dict : List (String × PyVal γ)) :
    Except String (List (List (String × PyVal γ))) := do
  let max_val ← maxValLoop dict 1
  mapME (fun d => mapME (fillEntry d) dict) (List.range max_val)

/-- Running maximum of the scan loop from an accumulator `m`. -/
def maxFrom {γ : Type} (dict : List (String × PyVal γ)) (m : Nat) : Nat :=
  dict.foldl (fun a p => match p.2 with | PyVal.plist v => max a v.length | _ => a) m

/-- The hierarchy width `max_val` computed by the succeeding scan loop: the
maximum of 1 and every list length occurring in the dictionary. -/
def maxOf {γ : Type} (dict : List (String × PyVal γ)) : Nat :=
  maxFrom dict 1

/-- Written from the spec for claim C2: per-level dictionary `i` holds, for a
key, the scalar itself, the single element of a length-1 list, or the `i`-th
element of a longer list. -/
def spec_select {γ : Type} (i : Nat) : PyVal γ → PyVal γ
  | PyVal.plist l => if l.length = 1 then l.getD 0 (PyVal.plist []) else l.getD i (PyVal.plist [])
  | v => v

/-- Written from the spec for claim C2: the expansion of a configuration
dictionary into `maxOf dict` per-level dictionaries. -/
def spec_expand {γ : Type} (dict : List (String × PyVal γ)) : List (List (String × PyVal γ)) :=
  (List.range (maxOf dict)).map (fun i => dict.map (fun p => (p.1, spec_select i p.2)))

/-- Boolean test that a value is a Python list. -/
def isPlist {γ : Type} : PyVal γ → Bool
  | PyVal.plist _ => true
  | _ => false

/-- Boolean test that a list value's length is 1 or the given width; non-list
values pass. -/
def lenOkB {γ : Type} (n : Nat) : PyVal γ → Bool
  | PyVal.plist l => l.length == 1 || l.length == n
  | _ => true

/-- Boolean test that no element of a list value is itself a list; non-list
values pass. -/
def noNestedB {γ : Type} : PyVal γ → Bool
  | PyVal.plist l => l.all (fun x => !(isPlist x))
  | _ => true

lemma le_maxFrom {γ : Type} (dict : List (String × PyVal γ)) :
    ∀ m : Nat, m ≤ maxFrom dict m := by
  induction dict with
  | nil => intro m; simp [maxFrom]
  | cons p r ih =>
    intro m
    match hp : p.2 with
    | PyVal.base a => simpa [maxFrom, hp] using ih m
    | PyVal.dict dd => simpa [maxFrom, hp] using ih m
    | PyVal.plist v =>
      have h1 : m ≤ max m v.length := Nat.le_max_left _ _
      have h2 : max m v.length ≤ maxFrom r (max m v.length) := ih _
      calc m ≤ max m v.length := h1
        _ ≤ maxFrom r (max m v.length) := h2
        _ = maxFrom (p :: r) m := by simp [maxFrom, hp]

lemma maxValLoop_spec {γ : Type} (M : Nat) (hM : 1 ≤ M) (hM256 : M ≤ 256) :
    ∀ (d : List (String × PyVal γ)) (m : Nat),
      (∀ p ∈ d, lenOkB M p.2 = true) → (m = 1 ∨ m = M) →
      maxValLoop d m = Except.ok (maxFrom d m) := by
  intro d
  induction d with
  | nil => intro m _ _; simp [maxValLoop, maxFrom]
  | cons p r ih =>
    intro m hlen hm
    match hp : p.2 with
    | PyVal.base a =>
      have := ih m (fun q hq => hlen q (List.mem_cons_of_mem _ hq)) hm
      simpa [maxValLoop, maxFrom, hp] using this
    | PyVal.dict dd =>
      have := ih m (fun q hq => hlen q (List.mem_cons_of_mem _ hq)) hm
      simpa [maxValLoop, maxFrom, hp] using this
    | PyVal.plist v =>
      have hv : v.length = 1 ∨ v.length = M := by
        have := hlen p (List.mem_cons_self _ _)
        rw [hp] at this
        simp [lenOkB] at this
        rcases this with h | h
        · exact Or.inl h
        · exact Or.inr h
      have hnoerr : ¬(v.length > 1 ∧ m > 1 ∧ ¬(v.length = m ∧ v.length ≤ 256)) := by
        rintro ⟨h1, h2, h3⟩
        rcases hv with h | h
        · omega
        · rcases hm with hm | hm
          · omega
          · exact h3 ⟨by omega, by omega⟩
      have hm2 : max m v.length = 1 ∨ max m v.length = M := by
        rcases hv with h | h <;> rcases hm with hm | hm <;> rw [h, hm] <;> omega
      have := ih (max m v.length) (fun q hq => hlen q (List.mem_cons_of_mem _ hq)) hm2
      have hstep : maxValLoop (p :: r) m = maxValLoop r (max m v.length) := by
        simp only [maxValLoop, hp]
        rw [if_neg hnoerr]
      have hfold : maxFrom (p :: r) m = maxFrom r (max m v.length) := by
        simp only [maxFrom, List.foldl_cons, hp]
      rw [hstep, hfold]
      exact this

lemma mapME_ok {β γ : Type} (f : β → Except String γ) (g : β → γ) :
    ∀ l : List β, (∀ x ∈ l, f x = Except.ok (g x)) → mapME f l = Except.ok (l.map g) := by
  intro l
  induction l with
  | nil => intro _; simp [mapME]
  | cons x xs ih =>
    intro h
    have hx : f x = Except.ok (g x) := h x (List.mem_cons_self _ _)
    have hxs : mapME f xs = Except.ok (xs.map g) := ih (fun y hy => h y (List.mem_cons_of_mem _ hy))
    simp [mapME, hx, hxs, List.map]
    rfl

lemma maxValLoop_err_propagate {γ : Type} :
    ∀ (d : List (String × PyVal γ)) (m : Nat), 1 < m →
      ∀ (k : String) (v : List (PyVal γ)), (k, PyVal.plist v) ∈ d →
        1 < v.length → v.length ≠ m → maxValLoop d m = Except.error exitMessage := by
  intro d
  induction d with
  | nil => intro m _ k v hv; simp at hv
  | cons p r ih =>
    intro m hm k v hv hl hne
    obtain ⟨pk, pv⟩ := p
    rcases List.mem_cons.mp hv with heq | hmem
    · have hk : pv = PyVal.plist v := (Prod.mk.injEq _ _ _ _).mp heq.symm |>.2
      subst hk
      have : v.length > 1 ∧ m > 1 ∧ ¬(v.length = m ∧ v.length ≤ 256) :=
        ⟨hl, hm, fun hc => hne hc.1⟩
      simp [maxValLoop, this]
    · match hp : pv with
      | PyVal.base a => simpa [maxValLoop] using ih m hm k v hmem hl hne
      | PyVal.dict dd => simpa [maxValLoop] using ih m hm k v hmem hl hne
      | PyVal.plist w =>
        by_cases herr : w.length > 1 ∧ m > 1 ∧ ¬(w.length = m ∧ w.length ≤ 256)
        · simp [maxValLoop, herr]
        · have hw : w.length ≤ 1 ∨ w.length = m := by
            rcases Nat.lt_or_ge 1 w.length with h | h
            · right
              by_contra hc
              exact herr ⟨h, hm, fun hx => hc hx.1⟩
            · left; omega
          have hmax : max m w.length = m := by rcases hw with h | h <;> omega
          have := ih m hm k v hmem hl hne
          simp [maxValLoop, herr, hmax]
          exact fun _ => this

lemma maxValLoop_err_mismatch {γ : Type} :
    ∀ (d : List (String × PyVal γ)) (m : Nat), m = 1 →
      ∀ (k1 k2 : String) (v1 v2 : List (PyVal γ)),
        (k1, PyVal.plist v1) ∈ d → (k2, PyVal.plist v2) ∈ d →
        1 < v1.length → 1 < v2.length → v1.length ≠ v2.length →
        maxValLoop d m = Except.error exitMessage := by
  intro d
  induction d with
  | nil => intro m _ k1 k2 v1 v2 h1; simp at h1
  | cons p r ih =>
    intro m hm k1 k2 v1 v2 h1 h2 hl1 hl2 hne
    obtain ⟨pk, pv⟩ := p
    match hp : pv with
    | PyVal.base a =>
      have h1r : (k1, PyVal.plist v1) ∈ r := by
        rcases List.mem_cons.mp h1 with heq | hmem
        · exact absurd ((Prod.mk.injEq _ _ _ _).mp heq.symm).2 (by simp)
        · exact hmem
      have h2r : (k2, PyVal.plist v2) ∈ r := by
        rcases List.mem_cons.mp h2 with heq | hmem
        · exact absurd ((Prod.mk.injEq _ _ _ _).mp heq.symm).2 (by simp)
        · exact hmem
      simpa [maxValLoop] using ih m hm k1 k2 v1 v2 h1r h2r hl1 hl2 hne
    | PyVal.dict dd =>
      have h1r : (k1, PyVal.plist v1) ∈ r := by
        rcases List.mem_cons.mp h1 with heq | hmem
        · exact absurd ((Prod.mk.injEq _ _ _ _).mp heq.symm).2 (by simp)
        · exact hmem
      have h2r : (k2, PyVal.plist v2) ∈ r := by
        rcases List.mem_cons.mp h2 with heq | hmem
        · exact absurd ((Prod.mk.injEq _ _ _ _).mp heq.symm).2 (by simp)
        · exact hmem
      simpa [maxValLoop] using ih m hm k1 k2 v1 v2 h1r h2r hl1 hl2 hne
    | PyVal.plist w =>
      have herr : ¬(w.length > 1 ∧ m > 1 ∧ ¬(w.length = m ∧ w.length ≤ 256)) := by
        rintro ⟨_, hm2, _⟩; omega
      rcases Nat.lt_or_ge 1 w.length with hwlen | hwlen
      · have hmax : max m w.length = w.length := by omega
        have hm2 : 1 < w.length := hwlen
        rcases List.mem_cons.mp h1 with heq1 | hmem1
        · have hv1 : v1 = w := by
            have := ((Prod.mk.injEq _ _ _ _).mp heq1.symm).2
            exact (PyVal.plist.injEq _ _).mp this.symm
          have h2r : (k2, PyVal.plist v2) ∈ r := by
            rcases List.mem_cons.mp h2 with heq2 | hmem2
            · have hv2 : v2 = w := by
                have := ((Prod.mk.injEq _ _ _ _).mp heq2.symm).2
                exact (PyVal.plist.injEq _ _).mp this.symm
              exact absurd (by rw [hv1, hv2]) hne
            · exact hmem2
          have := maxValLoop_err_propagate r (max m w.length) (by omega) k2 v2 h2r hl2
            (by rw [hmax, ← hv1]; exact fun hc => hne hc.symm)
          simp [maxValLoop, herr]
          exact fun _ => this
        · rcases List.mem_cons.mp h2 with heq2 | hmem2
          · have hv2 : v2 = w := by
              have := ((Prod.mk.injEq _ _ _ _).mp heq2.symm).2
              exact (PyVal.plist.injEq _ _).mp this.symm
            have := maxValLoop_err_propagate r (max m w.length) (by omega) k1 v1 hmem1 hl1
              (by rw [hmax, ← hv2]; exact hne)
            simp [maxValLoop, herr]
            exact fun _ => this
          · by_cases hv1w : v1.length = w.length
            · have := maxValLoop_err_propagate r (max m w.length) (by omega) k2 v2 hmem2 hl2
                (by rw [hmax, ← hv1w]; exact fun hc => hne hc.symm)
              simp [maxValLoop, herr]
              exact fun _ => this
            · have := maxValLoop_err_propagate r (max m w.length) (by omega) k1 v1 hmem1 hl1
                (by rw [hmax]; exact hv1w)
              simp [maxValLoop, herr]
              exact fun _ => this
      · have hmax : max m w.length = m := by omega
        have h1r : (k1, PyVal.plist v1) ∈ r := by
          rcases List.mem_cons.mp h1 with heq | hmem
          · have hv1 : v1 = w := by
              have := ((Prod.mk.injEq _ _ _ _).mp heq.symm).2
              exact (PyVal.plist.injEq _ _).mp this.symm
            rw [hv1] at hl1
            omega
          · exact hmem
        have h2r : (k2, PyVal.plist v2) ∈ r := by
          rcases List.mem_cons.mp h2 with heq | hmem
          · have hv2 : v2 = w := by
              have := ((Prod.mk.injEq _ _ _ _).mp heq.symm).2
              exact (PyVal.plist.injEq _ _).mp this.symm
            rw [hv2] at hl2
            omega
          · exact hmem
        have := ih m hm k1 k2 v1 v2 h1r h2r hl1 hl2 hne
        simp [maxValLoop, herr, hmax]
        exact fun _ => this

/-- Claim C3: a configuration dictionary holding two list values whose lengths
are both greater than 1 and differ makes `step.__dict_to_list` call `sys.exit`
(src/pySDC/Step.py:168-170); in the embedding the expansion returns an error
and no list of per-level dictionaries is produced. -/
theorem dict_to_list_mismatch_fatal {γ : Type} (d : List (String × PyVal γ))
    (k1 k2 : String) (v1 v2 : List (PyVal γ))
    (h1 : (k1, PyVal.plist v1) ∈ d) (h2 : (k2, PyVal.plist v2) ∈ d)
    (hl1 : 1 < v1.length) (hl2 : 1 < v2.length) (hne : v1.length ≠ v2.length) :
    dict_to_list d = Except.error exitMessage := by
  have h := maxValLoop_err_mismatch d 1 rfl k1 k2 v1 v2 h1 h2 hl1 hl2 hne
  simp [dict_to_list, h]
  rfl

/-- Concrete configuration of the spec's example shape: a 3-entry list next to
a 2-entry list. -/
def c3Dict : List (String × PyVal Nat) :=
  [("nvars", PyVal.plist [PyVal.base 50, PyVal.base 25, PyVal.base 10]),
   ("cadv", PyVal.plist [PyVal.base 1, PyVal.base 2])]

theorem dict_to_list_mismatch_fatal_witness :
    dict_to_list c3Dict = Except.error exitMessage :=
  dict_to_list_mismatch_fatal c3Dict "nvars" "cadv"
    [PyVal.base 50, PyVal.base 25, PyVal.base 10] [PyVal.base 1, PyVal.base 2]
    (List.mem_cons_self _ _) (List.mem_cons_of_mem _ (List.mem_cons_self _ _))
    (by decide) (by decide) (by decide)

lemma fillEntry_ok {γ : Type} (N i : Nat) (hiN : i < N) (p : String × PyVal γ)
    (hlen : lenOkB N p.2 = true) :
    fillEntry i p = Except.ok (p.1, spec_select i p.2) := by
  obtain ⟨k, v⟩ := p
  match v with
  | PyVal.base a => rfl
  | PyVal.dict dd => rfl
  | PyVal.plist l =>
    have hv : l.length = 1 ∨ l.length = N := by
      simp [lenOkB] at hlen
      rcases hlen with h | h
      · exact Or.inl h
      · exact Or.inr h
    by_cases h1 : l.length = 1
    · rcases l with _ | ⟨x, xs⟩
      · simp at h1
      · have hxs : xs = [] := by simpa using h1
        subst hxs
        simp [fillEntry, spec_select]
    · have hN : l.length = N := by
        rcases hv with h | h
        · exact absurd h h1
        · exact h
      have hil : i < l.length := by omega
      have hget2 : l[i]? = some l[i] := List.getElem?_eq_getElem hil
      simp [fillEntry, spec_select, h1, hget2]

/-- Amended claim C2: for a configuration dictionary whose list values all have
length 1 or length `N` (`N` = the width `max_val`, the maximum of 1 and all
list lengths), provided `N ≤ 256` - beyond CPython's interned-int range the
scan's `is not` identity test at src/pySDC/Step.py:168 compares distinct int
objects and exits even on numerically equal lengths -
`step.__dict_to_list` (src/pySDC/Step.py:154-183) succeeds and
produces exactly `N` per-level dictionaries, dictionary `i` mapping every key
to its scalar value, the single element of a length-1 list, or the `i`-th
element of a length-`N` list; entries whose selected element is itself a list
remain list-valued, and when no list element is itself a list, no list-valued
entries remain. -/
theorem dict_to_list_expansion {γ : Type} (d : List (String × PyVal γ))
    (hLen : ∀ p ∈ d, lenOkB (maxOf d) p.2 = true) (h256 : maxOf d ≤ 256) :
    dict_to_list d = Except.ok (spec_expand d) ∧
    (spec_expand d).length = maxOf d ∧
    ((∀ p ∈ d, noNestedB p.2 = true) →
      ∀ ld ∈ spec_expand d, ∀ q ∈ ld, isPlist q.2 = false) := by
  have hM : 1 ≤ maxOf d := le_maxFrom d 1
  have hMV : maxValLoop d 1 = Except.ok (maxOf d) :=
    maxValLoop_spec (maxOf d) hM h256 d 1 hLen (Or.inl rfl)
  have hfill : ∀ i ∈ List.range (maxOf d),
      mapME (fillEntry i) d = Except.ok (d.map (fun p => (p.1, spec_select i p.2))) := by
    intro i hi
    exact mapME_ok _ _ d (fun p hp => fillEntry_ok (maxOf d) i (List.mem_range.mp hi) p (hLen p hp))
  have houter : mapME (fun i => mapME (fillEntry i) d) (List.range (maxOf d)) =
      Except.ok ((List.range (maxOf d)).map (fun i => d.map (fun p => (p.1, spec_select i p.2)))) :=
    mapME_ok (fun i => mapME (fillEntry i) d)
      (fun i => d.map (fun p => (p.1, spec_select i p.2))) (List.range (maxOf d)) hfill
  refine ⟨?_, by simp [spec_expand], ?_⟩
  · have hred : dict_to_list d = mapME (fun i => mapME (fillEntry i) d) (List.range (maxOf d)) := by
      unfold dict_to_list
      rw [hMV]
      rfl
    rw [hred]
    exact houter
  · intro hnn ld hld q hq
    simp only [spec_expand, List.mem_map] at hld
    obtain ⟨i, hi, rfl⟩ := hld
    simp only [List.mem_map] at hq
    obtain ⟨p, hp, rfl⟩ := hq
    have hnp := hnn p hp
    have hlp := hLen p hp
    obtain ⟨k, v⟩ := p
    match v with
    | PyVal.base a => rfl
    | PyVal.dict dd => rfl
    | PyVal.plist l =>
      have hv : l.length = 1 ∨ l.length = maxOf d := by
        simp [lenOkB] at hlp
        rcases hlp with h | h
        · exact Or.inl h
        · exact Or.inr h
      have hall : ∀ x ∈ l, isPlist x = false := by
        simpa [noNestedB] using hnp
      by_cases h1 : l.length = 1
      · have h0 : 0 < l.length := by omega
        have : l.getD 0 (PyVal.plist []) = l[0] := List.getD_eq_getElem l _ h0
        simp only [spec_select, h1, if_pos, this]
        exact hall _ (List.getElem_mem h0)
      · have hN : l.length = maxOf d := by
          rcases hv with h | h
          · exact absurd h h1
          · exact h
        have hil : i < l.length := by
          have := List.mem_range.mp hi
          omega
        have : l.getD i (PyVal.plist []) = l[i] := List.getD_eq_getElem l _ hil
        simp only [spec_select, h1, if_neg, this]
        exact hall _ (List.getElem_mem hil)

/-- Configuration dictionary whose single key holds a length-2 list of lists:
the claim C2 hypothesis (all list lengths are 1 or the width 2) holds, yet the
expansion leaves list-valued entries in the per-level dictionaries. -/
def cexDict : List (String × PyVal Nat) :=
  [("a", PyVal.plist [PyVal.plist [PyVal.base 1], PyVal.plist [PyVal.base 2]])]

/-- Counterexample to claim C2 as stated: for `cexDict` the width is 2 and the
only list value has length 2, so the claim applies; the expansion succeeds and
per-level dictionary 0 maps key "a" to `[1]` - a value that is still a Python
list, contradicting the claim's "no list-valued entries remaining". -/
theorem dict_to_list_nested_list_cex :
    maxOf cexDict = 2 ∧
    lenOkB (maxOf cexDict)
      (PyVal.plist [PyVal.plist [PyVal.base (1 : Nat)], PyVal.plist [PyVal.base 2]]) = true ∧
    dict_to_list cexDict =
      Except.ok [[("a", PyVal.plist [PyVal.base 1])], [("a", PyVal.plist [PyVal.base 2])]] ∧
    isPlist (PyVal.plist [PyVal.base (1 : Nat)]) = true :=
  ⟨rfl, rfl, rfl, rfl⟩

/-- Configuration dictionary with one length-2 list and one scalar, as used by
the repository's drivers. -/
def wDict : List (String × PyVal Nat) :=
  [("nvars", PyVal.plist [PyVal.base 32, PyVal.base 16]), ("dt", PyVal.base 1)]

theorem dict_to_list_expansion_witness :
    dict_to_list wDict = Except.ok (spec_expand wDict) ∧ (spec_expand wDict).length = maxOf wDict :=
  ⟨(dict_to_list_expansion wDict (by decide) (by decide)).1,
   (dict_to_list_expansion wDict (by decide) (by decide)).2.1⟩

set_option maxRecDepth 4000 in
/-- The interning boundary is part of the model: two lists of equal length 300
make the scan call `sys.exit`, because beyond 256 each `len()` result is a
fresh int object and `is not` holds despite numeric equality. -/
theorem dict_to_list_interned_exit :
    dict_to_list
      [("a", PyVal.plist (List.replicate 300 (PyVal.base (0 : Nat)))),
       ("b", PyVal.plist (List.replicate 300 (PyVal.base 0)))] =
      Except.error exitMessage := rfl

/-- Transfer actions installed by `step.connect_levels`
(src/pySDC/Step.py:206-225): the bound methods `T.restrict`, `T.prolong_f`
and `T.prolong` of the transfer instance `T` created for the edge whose
coarse level has the given index.  Invoking an action moves field data
between the two levels; for the table claims only its identity matters. -/
inductive TAction : Type where
  | restrict : Nat → TAction
  | prolong_f : Nat → TAction
  | prolong : Nat → TAction
deriving DecidableEq

/-- The transfer table `step.__transfer_dict` keyed by the (fine index, coarse
index) pair of level objects; level objects are in bijection with their
hierarchy indices, so the embedding keys by index. -/
abbrev TDict : Type := List ((Nat × Nat) × TAction)

/-- Modelled from the spec: the level container (pySDC/Level.py is not under
src/).  The spec needs only that a level stores its expanded parameters, an
id `L<index>`, and whether its tau correction term has been allocated
(`_level__add_tau` sets it; it starts unallocated). -/
structure SLevel (γ : Type) : Type where
  id : String
  problem_class : PyVal γ
  problem_params : PyVal γ
  dtype_u : PyVal γ
  dtype_f : PyVal γ
  sweeper_class : PyVal γ
  sweeper_params : PyVal γ
  level_params : PyVal γ
  hook_class : Option (PyVal γ)
  hasTau : Bool

/-- The step object (src/pySDC/Step.py): the ordered level list (finest at
index 0), the transfer table, and the user step parameters. -/
structure StepS (γ : Type) : Type where
  levels : List (SLevel γ)
  transfer_dict : TDict
  params : PyVal γ

/-- `step.register_level` (src/pySDC/Step.py:186-203): append the level and,
when the list now has more than one entry, allocate its tau correction. -/
def register_level {γ : Type} (levels : List (SLevel γ)) (L : SLevel γ) : List (SLevel γ) :=
  if 1 < (levels ++ [L]).length then levels ++ [{ L with hasTau := true }] else levels ++ [L]

/-- `step.connect_levels` (src/pySDC/Step.py:206-225): install the restrict
action under the (fine, coarse) key and, depending on the transfer's `finter`
parameter, `prolong_f` or `prolong` under the (coarse, fine) key. -/
def connect_levels (td : TDict) (finter : Bool) (fine coarse : Nat) : TDict :=
  let td1 := dictSet td (fine, coarse) (TAction.restrict coarse)
  if finter then dictSet td1 (coarse, fine) (TAction.prolong_f coarse)
  else dictSet td1 (coarse, fine) (TAction.prolong coarse)

/-- The `transfer_params` value the loop of `step.__generate_hierarchy` passes
to the transfer constructor for level `n` (src/pySDC/Step.py:125-128): the
expanded per-level value when present, an empty dictionary otherwise. -/
def tparams_at {γ : Type} (dl : List (List (String × PyVal γ))) (n : Nat) : PyVal γ :=
  match dl.get? n with
  | some dn =>
    match alookup dn "transfer_params" with
    | some v => v
    | none => PyVal.dict []
  | none => PyVal.dict []

/-- Read `d[k]` from a dictionary, raising KeyError when absent. -/
def lookupE {γ : Type} (d : List (String × PyVal γ)) (k : String) : Except String (PyVal γ) :=
  match alookup d k with
  | some v => Except.ok v
  | none => Except.error "KeyError"

/-- Read `dl[n]` from a Python list, raising IndexError when out of range. -/
def indexE {γ : Type} (dl : List (List (String × PyVal γ))) (n : Nat) :
    Except String (List (String × PyVal γ)) :=
  match dl.get? n with
  | some dn => Except.ok dn
  | none => Except.error "IndexError"

/-- Level construction inside the loop of `step.__generate_hierarchy`
(src/pySDC/Step.py:116-145): read the expanded per-level dictionary at index
`n`; `hook_class` and `problem_params` have defaults, the remaining keys are
accessed directly (KeyError if absent). -/
def mk_level {γ : Type} (dl : List (List (String × PyVal γ))) (n : Nat) :
    Except String (SLevel γ) := do
  let dn ← indexE dl n
  let hook := alookup dn "hook_class"
  let pp := match alookup dn "problem_params" with
    | some v => v
    | none => PyVal.dict []
  let pc ← lookupE dn "problem_class"
  let du ← lookupE dn "dtype_u"
  let df ← lookupE dn "dtype_f"
  let sc ← lookupE dn "sweeper_class"
  let swp ← lookupE dn "sweeper_params"
  let lp ← lookupE dn "level_params"
  Except.ok { id := "L" ++ toString n, problem_class := pc, problem_params := pp,
              dtype_u := du, dtype_f := df, sweeper_class := sc, sweeper_params := swp,
              level_params := lp, hook_class := hook, hasTau := false }

/-- The `for l in range(len(descr_list))` loop of `step.__generate_hierarchy`
(src/pySDC/Step.py:116-151), written as structural recursion on the number of
processed levels: build and register level `n`, and for `n > 0` connect levels
`n-1` (fine) and `n` (coarse).  `fo` evaluates the instantiated transfer's
`params.finter` flag from the per-level `transfer_params` value (the transfer
base class, pySDC/Transfer.py, is not under src/ and is modelled from the
spec as this boolean option). -/
def step_loop {γ : Type} (dl : List (List (String × PyVal γ))) (fo : PyVal γ → Bool) :
    Nat → Except String (List (SLevel γ) × TDict)
  | 0 => Except.ok ([], [])
  | n + 1 => do
    let (lvls, td) ← step_loop dl fo n
    let L ← mk_level dl n
    let lvls1 := register_level lvls L
    let td1 := if 0 < n then connect_levels td (fo (tparams_at dl n)) (n - 1) n else td
    Except.ok (lvls1, td1)

/-- Heap-model value: a scalar is either an opaque object (`Sum.inl`) or a
reference to a mutable dictionary in the store (`Sum.inr`). -/
abbrev HVal (α : Type) : Type := PyVal (α ⊕ Nat)

/-- A mutable-dictionary store: Python dict objects addressed by index, so the
frame claim (the caller's dictionaries are not mutated) is expressible. -/
structure DStore (α : Type) : Type where
  dicts : List (List (String × HVal α))

/-- Dereference a dictionary in the store. -/
def getRef {α : Type} (st : DStore α) (r : Nat) : Except String (List (String × HVal α)) :=
  match st.dicts.get? r with
  | some d => Except.ok d
  | none => Except.error "invalid reference"

/-- Overwrite a dictionary in the store. -/
def writeRef {α : Type} (st : DStore α) (r : Nat) (d : List (String × HVal α)) : DStore α :=
  ⟨st.dicts.set r d⟩

/-- Allocate a fresh dictionary object (`descr.copy()` allocates). -/
def allocRef {α : Type} (st : DStore α) (d : List (String × HVal α)) : DStore α × Nat :=
  (⟨st.dicts ++ [d]⟩, st.dicts.length)

/-- Python statement `st[r][k] = v`. -/
def assignKey {α : Type} (st : DStore α) (r : Nat) (k : String) (v : HVal α) :
    Except String (DStore α) := do
  let d ← getRef st r
  Except.ok (writeRef st r (dictSet d k v))

/-- An `assert key in descr` statement of `step.__generate_hierarchy`
(src/pySDC/Step.py:87-93, 110-111). -/
def requireKey {α : Type} (d : List (String × HVal α)) (k : String) : Except String Unit :=
  if k ∈ d.map Prod.fst then Except.ok () else Except.error "AssertionError"

/-- Read `descr[k]` and iterate it as a dictionary: a stored reference is
dereferenced, an immediate dictionary value is used as is. -/
def subDict {α : Type} (st : DStore α) (d : List (String × HVal α)) (k : String) :
    Except String (List (String × HVal α)) := do
  let v ← lookupE d k
  match v with
  | PyVal.base (Sum.inr p) => getRef st p
  | PyVal.dict dd => Except.ok dd
  | _ => Except.error "not a dict"

/-- First half of `step.__generate_hierarchy` (src/pySDC/Step.py:87-106):
assert the required keys, expand the three parameter sub-dictionaries, copy
the description (a fresh allocation), overwrite the three keys on the copy
only, and expand the copy into the per-level description list.  Returns the
copy's contents, the per-level list, and the store after the writes. -/
def expand_description {α : Type} (st : DStore α) (r : Nat) :
    Except String (List (String × HVal α) × List (List (String × HVal α)) × DStore α) := do
  let descr ← getRef st r
  let _ ← requireKey descr "problem_class"
  let _ ← requireKey descr "problem_params"
  let _ ← requireKey descr "dtype_u"
  let _ ← requireKey descr "dtype_f"
  let _ ← requireKey descr "sweeper_class"
  let _ ← requireKey descr "sweeper_params"
  let _ ← requireKey descr "level_params"
  let ppd ← subDict st descr "problem_params"
  let pparams_list ← dict_to_list ppd
  let lpd ← subDict st descr "level_params"
  let lparams_list ← dict_to_list lpd
  let swd ← subDict st descr "sweeper_params"
  let swparams_list ← dict_to_list swd
  let a := allocRef st descr
  let st1 := a.1
  let rNew := a.2
  let st2 ← assignKey st1 rNew "problem_params" (PyVal.plist (pparams_list.map PyVal.dict))
  let st3 ← assignKey st2 rNew "level_params" (PyVal.plist (lparams_list.map PyVal.dict))
  let st4 ← assignKey st3 rNew "sweeper_params" (PyVal.plist (swparams_list.map PyVal.dict))
  let descr_new ← getRef st4 rNew
  let descr_list ← dict_to_list descr_new
  Except.ok (descr_new, descr_list, st4)

/-- Sanity check of `step.__generate_hierarchy` (src/pySDC/Step.py:108-113):
with more than one level both transfer keys must be present; with a single
level the source only prints a warning, which has no effect. -/
def check_transfer_keys {α : Type} (descr_new : List (String × HVal α)) (nlev : Nat) :
    Except String Unit :=
  if 1 < nlev then do
    let _ ← requireKey descr_new "transfer_class"
    requireKey descr_new "transfer_params"
  else Except.ok ()

/-- `step.__generate_hierarchy` (src/pySDC/Step.py:76-151): expand the
description, check the transfer keys when more than one level results (the
single-level case only prints a warning), then run the level loop. -/
def generate_hierarchy {α : Type} (fo : HVal α → Bool) (st : DStore α) (r : Nat) :
    Except String (StepS (α ⊕ Nat) × DStore α) := do
  let (descr_new, descr_list, st1) ← expand_description st r
  let _ ← check_transfer_keys descr_new descr_list.length
  let (lvls, td) ← step_loop descr_list fo descr_list.length
  Except.ok ({ levels := lvls, transfer_dict := td, params := PyVal.dict [] }, st1)

/-- `step.__init__` (src/pySDC/Step.py:24-73): read `step_params` (default
empty) into the params record, then generate the hierarchy. -/
def step_construct {α : Type} (fo : HVal α → Bool) (st : DStore α) (r : Nat) :
    Except String (StepS (α ⊕ Nat) × DStore α) := do
  let descr ← getRef st r
  let sp := match alookup descr "step_params" with
    | some v => v
    | none => PyVal.dict []
  let (s, st1) ← generate_hierarchy fo st r
  Except.ok ({ s with params := sp }, st1)

/-- `step.transfer` (src/pySDC/Step.py:229-240): look up the (source, target)
pair in the transfer table and invoke the stored action with no arguments; a
missing key raises KeyError.  Invocation is modelled by returning the action
that gets called. -/
def step_transfer {γ : Type} (s : StepS γ) (source target : Nat) : Except String TAction :=
  match alookup s.transfer_dict (source, target) with
  | some act => Except.ok act
  | none => Except.error "KeyError"

/-- The two table entries `step.connect_levels` installs for the edge with
coarse index `n`. -/
def edge_entries {γ : Type} (dl : List (List (String × PyVal γ))) (fo : PyVal γ → Bool)
    (n : Nat) : TDict :=
  [((n - 1, n), TAction.restrict n),
   ((n, n - 1), if fo (tparams_at dl n) then TAction.prolong_f n else TAction.prolong n)]

/-- The transfer table after the loop has processed `n` levels. -/
def tableN {γ : Type} (dl : List (List (String × PyVal γ))) (fo : PyVal γ → Bool) :
    Nat → TDict
  | 0 => []
  | n + 1 => tableN dl fo n ++ (if 0 < n then edge_entries dl fo n else [])

lemma exbind_ok {β δ : Type} {e : Except String β} {f : β → Except String δ} {b : δ}
    (h : e >>= f = Except.ok b) : ∃ a, e = Except.ok a ∧ f a = Except.ok b := by
  cases e with
  | error msg => simp [Bind.bind, Except.bind] at h
  | ok a => exact ⟨a, rfl, by simpa [Bind.bind, Except.bind] using h⟩

lemma dictSet_not_mem {κ ν : Type} [DecidableEq κ] (d : List (κ × ν)) (k : κ) (v : ν)
    (h : k ∉ d.map Prod.fst) : dictSet d k v = d ++ [(k, v)] := by
  simp [dictSet, h]

lemma alookup_append {κ ν : Type} [DecidableEq κ] (a b : List (κ × ν)) (k : κ) :
    alookup (a ++ b) k =
      match alookup a k with
      | some v => some v
      | none => alookup b k := by
  induction a with
  | nil => simp [alookup]
  | cons p r ih =>
    by_cases hk : k = p.1
    · simp [alookup, hk]
    · simp [alookup, hk, ih]

lemma tableN_keys_lt {γ : Type} (dl : List (List (String × PyVal γ))) (fo : PyVal γ → Bool) :
    ∀ n a b act, ((a, b), act) ∈ tableN dl fo n → a < n ∧ b < n := by
  intro n
  induction n with
  | zero => simp [tableN]
  | succ n ih =>
    intro a b act hp
    simp only [tableN, List.mem_append] at hp
    rcases hp with hp | hp
    · have := ih a b act hp
      omega
    · by_cases hn : 0 < n
      · simp only [hn, if_pos, edge_entries, List.mem_cons, List.not_mem_nil, or_false] at hp
        rcases hp with hp | hp
        · simp only [Prod.mk.injEq] at hp
          obtain ⟨⟨rfl, rfl⟩, -⟩ := hp
          omega
        · simp only [Prod.mk.injEq] at hp
          obtain ⟨⟨rfl, rfl⟩, -⟩ := hp
          omega
      · simp [hn] at hp

lemma tableN_length {γ : Type} (dl : List (List (String × PyVal γ))) (fo : PyVal γ → Bool) :
    ∀ n, (tableN dl fo n).length = 2 * (n - 1) := by
  intro n
  induction n with
  | zero => simp [tableN]
  | succ n ih =>
    by_cases hn : 0 < n
    · simp [tableN, hn, edge_entries, ih]
      omega
    · simp [tableN, hn, ih]
      omega

lemma tableN_mem {γ : Type} (dl : List (List (String × PyVal γ))) (fo : PyVal γ → Bool) :
    ∀ n, ∀ p ∈ tableN dl fo n, ∃ e, 1 ≤ e ∧ e < n ∧
      (p = ((e - 1, e), TAction.restrict e) ∨
       p = ((e, e - 1),
         if fo (tparams_at dl e) then TAction.prolong_f e else TAction.prolong e)) := by
  intro n
  induction n with
  | zero => simp [tableN]
  | succ n ih =>
    intro p hp
    simp only [tableN, List.mem_append] at hp
    rcases hp with hp | hp
    · obtain ⟨e, he1, he2, he3⟩ := ih p hp
      exact ⟨e, he1, by omega, he3⟩
    · by_cases hn : 0 < n
      · simp only [hn, if_pos, edge_entries, List.mem_cons, List.mem_singleton] at hp
        rcases hp with rfl | hp
        · exact ⟨n, by omega, by omega, Or.inl rfl⟩
        · simp only [List.mem_singleton, List.not_mem_nil, or_false] at hp
          exact ⟨n, by omega, by omega, Or.inr hp⟩
      · simp [hn] at hp

lemma mk_level_hasTau {γ : Type} {dl : List (List (String × PyVal γ))} {n : Nat} {L : SLevel γ}
    (h : mk_level dl n = Except.ok L) : L.hasTau = false := by
  simp only [mk_level] at h
  obtain ⟨dn, h1, h⟩ := exbind_ok h
  obtain ⟨pc, h2, h⟩ := exbind_ok h
  obtain ⟨du, h3, h⟩ := exbind_ok h
  obtain ⟨df, h4, h⟩ := exbind_ok h
  obtain ⟨sc, h5, h⟩ := exbind_ok h
  obtain ⟨swp, h6, h⟩ := exbind_ok h
  obtain ⟨lp, h7, h⟩ := exbind_ok h
  injection h with h
  rw [← h]

lemma step_loop_spec {γ : Type} (dl : List (List (String × PyVal γ))) (fo : PyVal γ → Bool) :
    ∀ n lvls td, step_loop dl fo n = Except.ok (lvls, td) →
      lvls.length = n ∧
      (∀ i, i < n → (lvls.get? i).map SLevel.hasTau = some (decide (0 < i))) ∧
      td = tableN dl fo n := by
  intro n
  induction n with
  | zero =>
    intro lvls td h
    simp only [step_loop] at h
    injection h with h
    have hl : lvls = [] := by
      have := congrArg Prod.fst h
      simpa using this.symm
    have ht : td = [] := by
      have := congrArg Prod.snd h
      simpa using this.symm
    subst hl
    subst ht
    refine ⟨rfl, ?_, by simp [tableN]⟩
    intro i hi
    omega
  | succ n ih =>
    intro lvls td h
    simp only [step_loop] at h
    obtain ⟨⟨l0, t0⟩, h1, h2⟩ := exbind_ok h
    obtain ⟨L, h3, h4⟩ := exbind_ok h2
    injection h4 with h4
    have hl : lvls = register_level l0 L := by
      have := congrArg Prod.fst h4
      simpa using this.symm
    have ht : td = (if 0 < n then connect_levels t0 (fo (tparams_at dl n)) (n - 1) n else t0) := by
      have := congrArg Prod.snd h4
      simpa using this.symm
    obtain ⟨ihlen, ihtau, ihtd⟩ := ih l0 t0 h1
    have hlen2 : (l0 ++ [L]).length = n + 1 := by simp [ihlen]
    have hreg : register_level l0 L =
        (if 0 < n then l0 ++ [{ L with hasTau := true }] else l0 ++ [L]) := by
      unfold register_level
      by_cases hn : 0 < n
      · rw [if_pos (by rw [hlen2]; omega : 1 < (l0 ++ [L]).length), if_pos hn]
      · rw [if_neg (by rw [hlen2]; omega : ¬ 1 < (l0 ++ [L]).length), if_neg hn]
    refine ⟨?_, ?_, ?_⟩
    · rw [hl, hreg]
      by_cases hn : 0 < n <;> simp [hn, ihlen]
    · intro i hi
      rw [hl, hreg]
      by_cases hn : 0 < n
      · simp only [hn, if_pos]
        rcases Nat.lt_or_ge i n with hin | hin
        · have hil : i < l0.length := by omega
          rw [List.get?_append hil]
          exact ihtau i hin
        · have hieq : i = n := by omega
          subst hieq
          have : i = l0.length := by omega
          rw [this, List.get?_concat_length]
          simp
          omega
      · have hn0 : n = 0 := by omega
        subst hn0
        have hieq : i = 0 := by omega
        subst hieq
        have : l0 = [] := List.eq_nil_of_length_eq_zero ihlen
        subst this
        simp
        exact mk_level_hasTau h3
    · rw [ht, ihtd]
      by_cases hn : 0 < n
      · have hkey1 : ((n - 1, n) : Nat × Nat) ∉ (tableN dl fo n).map Prod.fst := by
          intro hmem
          simp only [List.mem_map] at hmem
          obtain ⟨p, hp, hkey⟩ := hmem
          obtain ⟨⟨a, b⟩, act⟩ := p
          have := tableN_keys_lt dl fo n a b act hp
          have hb : b = n := by
            have := congrArg Prod.snd hkey
            simpa using this
          omega
        have hstep1 : dictSet (tableN dl fo n) (n - 1, n) (TAction.restrict n) =
            tableN dl fo n ++ [((n - 1, n), TAction.restrict n)] :=
          dictSet_not_mem _ _ _ hkey1
        have hkey2 : ((n, n - 1) : Nat × Nat) ∉
            (tableN dl fo n ++ [((n - 1, n), TAction.restrict n)]).map Prod.fst := by
          intro hmem
          simp only [List.map_append, List.mem_append, List.mem_map] at hmem
          rcases hmem with hmem | hmem
          · obtain ⟨p, hp, hkey⟩ := hmem
            obtain ⟨⟨a, b⟩, act⟩ := p
            have := tableN_keys_lt dl fo n a b act hp
            have ha : a = n := by
              have := congrArg Prod.fst hkey
              simpa using this
            omega
          · simp only [List.mem_singleton] at hmem
            obtain ⟨p, hp, hkey⟩ := hmem
            rw [hp] at hkey
            simp only [Prod.mk.injEq] at hkey
            omega
        have hfin : connect_levels (tableN dl fo n) (fo (tparams_at dl n)) (n - 1) n =
            tableN dl fo (n + 1) := by
          simp only [connect_levels, tableN, hn, if_pos, edge_entries]
          by_cases hfo : fo (tparams_at dl n)
          · rw [if_pos hfo, hstep1, dictSet_not_mem _ _ _ hkey2, if_pos hfo]
            simp
          · rw [if_neg hfo, hstep1, dictSet_not_mem _ _ _ hkey2, if_neg hfo]
            simp
        simp only [hn, if_pos]
        exact hfin
      · simp [hn, tableN]

lemma tableN_alookup {γ : Type} (dl : List (List (String × PyVal γ))) (fo : PyVal γ → Bool) :
    ∀ n i j, alookup (tableN dl fo n) (i, j) =
      if j = i + 1 ∧ j < n then some (TAction.restrict j)
      else if i = j + 1 ∧ i < n then
        some (if fo (tparams_at dl i) then TAction.prolong_f i else TAction.prolong i)
      else none := by
  intro n
  induction n with
  | zero =>
    intro i j
    rw [show tableN dl fo 0 = [] from rfl]
    rw [show alookup ([] : TDict) (i, j) = none from rfl]
    split_ifs with h1 h2
    · omega
    · omega
    · rfl
  | succ n ih =>
    intro i j
    by_cases hn : 0 < n
    · rw [show tableN dl fo (n + 1) = tableN dl fo n ++ edge_entries dl fo n by
        simp [tableN, hn]]
      rw [alookup_append, ih]
      by_cases h1 : j = i + 1 ∧ j < n
      · rw [if_pos h1]
        rw [if_pos (show j = i + 1 ∧ j < n + 1 from ⟨h1.1, by omega⟩)]
      · by_cases h2 : i = j + 1 ∧ i < n
        · rw [if_neg h1, if_pos h2]
          rw [if_neg (show ¬(j = i + 1 ∧ j < n + 1) by omega)]
          rw [if_pos (show i = j + 1 ∧ i < n + 1 from ⟨h2.1, by omega⟩)]
        · rw [if_neg h1, if_neg h2]
          show alookup (edge_entries dl fo n) (i, j) = _
          by_cases hA : (i, j) = ((n - 1 : Nat), n)
          · rw [Prod.mk.injEq] at hA
            obtain ⟨hAi, hAj⟩ := hA
            rw [hAi, hAj]
            rw [if_pos (show n = (n - 1) + 1 ∧ n < n + 1 by omega)]
            simp [edge_entries, alookup]
          · by_cases hB : (i, j) = ((n : Nat), n - 1)
            · rw [Prod.mk.injEq] at hB
              obtain ⟨hBi, hBj⟩ := hB
              rw [hBi, hBj]
              rw [if_neg (show ¬(n - 1 = n + 1 ∧ n - 1 < n + 1) by omega)]
              rw [if_pos (show n = (n - 1) + 1 ∧ n < n + 1 by omega)]
              have hne1 : ((n : Nat), n - 1) ≠ ((n - 1 : Nat), n) := by
                intro hc
                rw [Prod.mk.injEq] at hc
                omega
              simp [edge_entries, alookup, hne1]
            · rw [if_neg (show ¬(j = i + 1 ∧ j < n + 1) by
                rintro ⟨hj1, hj2⟩
                apply hA
                rw [Prod.mk.injEq]
                omega)]
              rw [if_neg (show ¬(i = j + 1 ∧ i < n + 1) by
                rintro ⟨hi1, hi2⟩
                apply hB
                rw [Prod.mk.injEq]
                omega)]
              simp [edge_entries, alookup, hA, hB]
    · have hn0 : n = 0 := by omega
      subst hn0
      rw [show tableN dl fo 1 = [] by simp [tableN]]
      rw [show alookup ([] : TDict) (i, j) = none from rfl]
      split_ifs with h1 h2
      · omega
      · omega
      · rfl

lemma generate_hierarchy_ok {α : Type} {fo : HVal α → Bool} {st : DStore α} {r : Nat}
    {s : StepS (α ⊕ Nat)} {st2 : DStore α}
    (h : generate_hierarchy fo st r = Except.ok (s, st2)) :
    ∃ dn dl, expand_description st r = Except.ok (dn, dl, st2) ∧
      s.levels.length = dl.length ∧
      (∀ i, i < dl.length → (s.levels.get? i).map SLevel.hasTau = some (decide (0 < i))) ∧
      s.transfer_dict = tableN dl fo dl.length := by
  simp only [generate_hierarchy] at h
  obtain ⟨⟨dn, dl, st1⟩, h1, h2⟩ := exbind_ok h
  obtain ⟨u, h3, h4⟩ := exbind_ok h2
  obtain ⟨⟨lvls, td⟩, h5, h6⟩ := exbind_ok h4
  injection h6 with h6
  have hs : s = { levels := lvls, transfer_dict := td, params := PyVal.dict [] } := by
    have := congrArg Prod.fst h6
    simpa using this.symm
  have hst : st1 = st2 := by
    have := congrArg Prod.snd h6
    simpa using this
  obtain ⟨hlen, htau, htd⟩ := step_loop_spec dl fo dl.length lvls td h5
  refine ⟨dn, dl, ?_, ?_, ?_, ?_⟩
  · rw [← hst]
    exact h1
  · rw [hs]
    exact hlen
  · intro i hi
    rw [hs]
    exact htau i hi
  · rw [hs]
    exact htd

/-- Claim C1: a step generated from a description that expands into `N` levels
has a transfer table with exactly `2*(N-1)` entries; every key is an ordered
pair of hierarchy-adjacent level indices; the (fine, coarse) entry is the
edge's restrict action; and the (coarse, fine) entry is `prolong_f` exactly
when the transfer's `finter` option (evaluated by `fo` on the edge's expanded
`transfer_params`) is set, plain `prolong` otherwise
(src/pySDC/Step.py:116-151, 206-225). -/
theorem step_transfer_table_C1 {α : Type} (fo : HVal α → Bool) (st : DStore α) (r : Nat)
    (s : StepS (α ⊕ Nat)) (st2 : DStore α)
    (dn : List (String × HVal α)) (dl : List (List (String × HVal α)))
    (h : generate_hierarchy fo st r = Except.ok (s, st2))
    (hexp : expand_description st r = Except.ok (dn, dl, st2)) :
    s.transfer_dict.length = 2 * (s.levels.length - 1) ∧
    (∀ p ∈ s.transfer_dict, ∃ e, 1 ≤ e ∧ e < s.levels.length ∧
      (p = ((e - 1, e), TAction.restrict e) ∨
       p = ((e, e - 1),
         if fo (tparams_at dl e) then TAction.prolong_f e else TAction.prolong e))) ∧
    (∀ e, 1 ≤ e → e < s.levels.length →
      alookup s.transfer_dict (e - 1, e) = some (TAction.restrict e) ∧
      alookup s.transfer_dict (e, e - 1) =
        some (if fo (tparams_at dl e) then TAction.prolong_f e else TAction.prolong e)) := by
  obtain ⟨dn2, dl2, hexp2, hlen, htau, htd⟩ := generate_hierarchy_ok h
  rw [hexp] at hexp2
  injection hexp2 with hexp2
  have hdl : dl = dl2 := by
    have := congrArg (fun t => t.2.1) hexp2
    simpa using this
  subst hdl
  refine ⟨?_, ?_, ?_⟩
  · rw [htd, tableN_length, hlen]
  · intro p hp
    rw [htd] at hp
    obtain ⟨e, he1, he2, he3⟩ := tableN_mem dl fo dl.length p hp
    exact ⟨e, he1, by omega, he3⟩
  · intro e he1 he2
    constructor
    · rw [htd, tableN_alookup]
      rw [if_pos (show e = (e - 1) + 1 ∧ e < dl.length by omega)]
    · rw [htd, tableN_alookup]
      rw [if_neg (show ¬(e - 1 = e + 1 ∧ e - 1 < dl.length) by omega)]
      rw [if_pos (show e = (e - 1) + 1 ∧ e < dl.length by omega)]

/-- Claim C6: on a constructed step, `step.transfer` raises KeyError for every
non-adjacent index pair and invokes the installed table entry for every
adjacent pair (src/pySDC/Step.py:229-240): (i, i+1) invokes the restrict
action, (j+1, j) the configured prolongation action. -/
theorem step_transfer_adjacency_C6 {α : Type} (fo : HVal α → Bool) (st : DStore α) (r : Nat)
    (s : StepS (α ⊕ Nat)) (st2 : DStore α)
    (dn : List (String × HVal α)) (dl : List (List (String × HVal α)))
    (h : generate_hierarchy fo st r = Except.ok (s, st2))
    (hexp : expand_description st r = Except.ok (dn, dl, st2))
    (i j : Nat) (hi : i < s.levels.length) (hj : j < s.levels.length) :
    (¬(j = i + 1 ∨ i = j + 1) → step_transfer s i j = Except.error "KeyError") ∧
    (j = i + 1 → step_transfer s i j = Except.ok (TAction.restrict j)) ∧
    (i = j + 1 → step_transfer s i j =
      Except.ok (if fo (tparams_at dl i) then TAction.prolong_f i else TAction.prolong i)) := by
  obtain ⟨dn2, dl2, hexp2, hlen, htau, htd⟩ := generate_hierarchy_ok h
  rw [hexp] at hexp2
  injection hexp2 with hexp2
  have hdl : dl = dl2 := by
    have := congrArg (fun t => t.2.1) hexp2
    simpa using this
  subst hdl
  refine ⟨?_, ?_, ?_⟩
  · intro hnadj
    simp only [step_transfer, htd, tableN_alookup]
    rw [if_neg (show ¬(j = i + 1 ∧ j < dl.length) by omega)]
    rw [if_neg (show ¬(i = j + 1 ∧ i < dl.length) by omega)]
  · intro hji
    simp only [step_transfer, htd, tableN_alookup]
    rw [if_pos (show j = i + 1 ∧ j < dl.length by omega)]
  · intro hij
    simp only [step_transfer, htd, tableN_alookup]
    rw [if_neg (show ¬(j = i + 1 ∧ j < dl.length) by omega)]
    rw [if_pos (show i = j + 1 ∧ i < dl.length by omega)]

/-- Claim C8: after constructing a step with at least two levels, every level
at positive index has its tau correction allocated and the finest level (index
0) does not (src/pySDC/Step.py:186-203 together with the construction loop). -/
theorem step_tau_C8 {α : Type} (fo : HVal α → Bool) (st : DStore α) (r : Nat)
    (s : StepS (α ⊕ Nat)) (st2 : DStore α)
    (h : generate_hierarchy fo st r = Except.ok (s, st2))
    (hN : 2 ≤ s.levels.length) :
    ∀ i, i < s.levels.length → (s.levels.get? i).map SLevel.hasTau = some (decide (0 < i)) := by
  obtain ⟨dn, dl, hexp, hlen, htau, htd⟩ := generate_hierarchy_ok h
  intro i hi
  exact htau i (by omega)

lemma assignKey_frame {α : Type} {stA : DStore α} {rr : Nat} {k : String} {v : HVal α}
    {stB : DStore α} (h : assignKey stA rr k v = Except.ok stB) :
    stB.dicts.length = stA.dicts.length ∧
    ∀ i, i ≠ rr → stB.dicts.get? i = stA.dicts.get? i := by
  simp only [assignKey] at h
  obtain ⟨d, h1, h2⟩ := exbind_ok h
  injection h2 with h2
  rw [← h2]
  refine ⟨by simp [writeRef], ?_⟩
  intro i hi
  simp only [writeRef]
  rw [List.get?_eq_getElem?, List.get?_eq_getElem?]
  exact List.getElem?_set_ne (by omega)

lemma expand_description_frame {α : Type} {st : DStore α} {r : Nat}
    {dn : List (String × HVal α)} {dl : List (List (String × HVal α))} {st4 : DStore α}
    (h : expand_description st r = Except.ok (dn, dl, st4)) :
    ∀ i, i < st.dicts.length → st4.dicts.get? i = st.dicts.get? i := by
  simp only [expand_description] at h
  obtain ⟨descr, hA, h⟩ := exbind_ok h
  obtain ⟨u1, hu1, h⟩ := exbind_ok h
  obtain ⟨u2, hu2, h⟩ := exbind_ok h
  obtain ⟨u3, hu3, h⟩ := exbind_ok h
  obtain ⟨u4, hu4, h⟩ := exbind_ok h
  obtain ⟨u5, hu5, h⟩ := exbind_ok h
  obtain ⟨u6, hu6, h⟩ := exbind_ok h
  obtain ⟨u7, hu7, h⟩ := exbind_ok h
  obtain ⟨ppd, hppd, h⟩ := exbind_ok h
  obtain ⟨ppl, hppl, h⟩ := exbind_ok h
  obtain ⟨lpd, hlpd, h⟩ := exbind_ok h
  obtain ⟨lpl, hlpl, h⟩ := exbind_ok h
  obtain ⟨swd, hswd, h⟩ := exbind_ok h
  obtain ⟨swl, hswl, h⟩ := exbind_ok h
  obtain ⟨stB, hsB, h⟩ := exbind_ok h
  obtain ⟨stC, hsC, h⟩ := exbind_ok h
  obtain ⟨stD, hsD, h⟩ := exbind_ok h
  obtain ⟨dnew, hdnew, h⟩ := exbind_ok h
  obtain ⟨dlx, hdlx, h⟩ := exbind_ok h
  injection h with h
  have hstD : stD = st4 := by
    have := congrArg (fun t => t.2.2) h
    simpa using this
  obtain ⟨hBlen, hBget⟩ := assignKey_frame hsB
  obtain ⟨hClen, hCget⟩ := assignKey_frame hsC
  obtain ⟨hDlen, hDget⟩ := assignKey_frame hsD
  intro i hi
  have hne : i ≠ st.dicts.length := by omega
  rw [← hstD]
  rw [hDget i hne, hCget i hne, hBget i hne]
  show (st.dicts ++ [descr]).get? i = st.dicts.get? i
  rw [List.get?_eq_getElem?, List.get?_eq_getElem?]
  exact List.getElem?_append_left hi

/-- Claim C10: constructing a step from a description dictionary leaves every
pre-existing dictionary in the store - in particular the caller's description
and its nested parameter dictionaries - unchanged: `step.__generate_hierarchy`
copies the description (src/pySDC/Step.py:101) and writes only to the copy. -/
theorem step_construct_frame_C10 {α : Type} (fo : HVal α → Bool) (st : DStore α) (r : Nat)
    (s : StepS (α ⊕ Nat)) (st2 : DStore α)
    (h : step_construct fo st r = Except.ok (s, st2)) :
    ∀ i, i < st.dicts.length → st2.dicts.get? i = st.dicts.get? i := by
  simp only [step_construct] at h
  obtain ⟨descr, h1, h⟩ := exbind_ok h
  obtain ⟨⟨s1, st1⟩, h2, h⟩ := exbind_ok h
  injection h with h
  have hst : st1 = st2 := by
    have := congrArg Prod.snd h
    simpa using this
  obtain ⟨dn, dl, hexp, hlen2, htau, htd⟩ := generate_hierarchy_ok h2
  rw [hst] at hexp
  exact expand_description_frame hexp

/-- Problem parameters of the witness description: one per-level list of
length 3, so the hierarchy expands into three levels. -/
def ppDict0 : List (String × HVal Nat) :=
  [("nvars", PyVal.plist [PyVal.base (Sum.inl 32), PyVal.base (Sum.inl 16),
    PyVal.base (Sum.inl 8)])]

/-- Level parameters of the witness description. -/
def lpDict0 : List (String × HVal Nat) := [("restol", PyVal.base (Sum.inl 1))]

/-- Sweeper parameters of the witness description. -/
def swDict0 : List (String × HVal Nat) := [("num_nodes", PyVal.base (Sum.inl 3))]

/-- The witness description dictionary: required keys plus transfer keys, with
the three parameter sub-dictionaries held by reference (store slots 1-3). -/
def descr0 : List (String × HVal Nat) :=
  [("problem_class", PyVal.base (Sum.inl 0)),
   ("problem_params", PyVal.base (Sum.inr 1)),
   ("dtype_u", PyVal.base (Sum.inl 0)),
   ("dtype_f", PyVal.base (Sum.inl 0)),
   ("sweeper_class", PyVal.base (Sum.inl 0)),
   ("sweeper_params", PyVal.base (Sum.inr 3)),
   ("level_params", PyVal.base (Sum.inr 2)),
   ("transfer_class", PyVal.base (Sum.inl 0)),
   ("transfer_params", PyVal.dict [("finter", PyVal.base (Sum.inl 1))])]

/-- The witness store: the description at reference 0, its sub-dictionaries at
references 1-3. -/
def store0 : DStore Nat := ⟨[descr0, ppDict0, lpDict0, swDict0]⟩

/-- A concrete finter evaluation (the flag is off). -/
def fo0 : HVal Nat → Bool := fun _ => false

/-- Result of generating the witness hierarchy. -/
def genRes0 : Except String (StepS (Nat ⊕ Nat) × DStore Nat) :=
  generate_hierarchy fo0 store0 0

/-- The witness step. -/
def s0 : StepS (Nat ⊕ Nat) :=
  match genRes0 with
  | Except.ok x => x.1
  | Except.error _ => { levels := [], transfer_dict := [], params := PyVal.dict [] }

/-- The witness store after construction. -/
def st0A : DStore Nat :=
  match genRes0 with
  | Except.ok x => x.2
  | Except.error _ => store0

/-- Result of expanding the witness description. -/
def expRes0 : Except String
    (List (String × HVal Nat) × List (List (String × HVal Nat)) × DStore Nat) :=
  expand_description store0 0

/-- The expanded copy of the witness description. -/
def dn0 : List (String × HVal Nat) :=
  match expRes0 with
  | Except.ok x => x.1
  | Except.error _ => []

/-- The per-level description list of the witness. -/
def dl0 : List (List (String × HVal Nat)) :=
  match expRes0 with
  | Except.ok x => x.2.1
  | Except.error _ => []

theorem step_transfer_table_C1_witness :
    s0.transfer_dict.length = 2 * (s0.levels.length - 1) :=
  (step_transfer_table_C1 fo0 store0 0 s0 st0A dn0 dl0 rfl rfl).1

theorem step_transfer_adjacency_C6_witness :
    step_transfer s0 0 2 = Except.error "KeyError" :=
  (step_transfer_adjacency_C6 fo0 store0 0 s0 st0A dn0 dl0 rfl rfl 0 2
    (by rw [show s0.levels.length = 3 from rfl]; omega)
    (by rw [show s0.levels.length = 3 from rfl]; omega)).1 (by decide)

theorem step_tau_C8_witness :
    (s0.levels.get? 1).map SLevel.hasTau = some (decide (0 < 1)) :=
  step_tau_C8 fo0 store0 0 s0 st0A rfl
    (by rw [show s0.levels.length = 3 from rfl]; omega) 1
    (by rw [show s0.levels.length = 3 from rfl]; omega)

/-- Result of constructing the witness step. -/
def conRes0 : Except String (StepS (Nat ⊕ Nat) × DStore Nat) :=
  step_construct fo0 store0 0

/-- The witness step as built by `step_construct`. -/
def sC0 : StepS (Nat ⊕ Nat) :=
  match conRes0 with
  | Except.ok x => x.1
  | Except.error _ => { levels := [], transfer_dict := [], params := PyVal.dict [] }

/-- The witness store after `step_construct`. -/
def stC0 : DStore Nat :=
  match conRes0 with
  | Except.ok x => x.2
  | Except.error _ => store0

theorem step_construct_frame_C10_witness :
    stC0.dicts.get? 1 = store0.dicts.get? 1 :=
  step_construct_frame_C10 fo0 store0 0 sC0 stC0 rfl 1 (by decide)

/-- Dot product of two rational lists (numpy `dot` on flat buffers). -/
def dotL (r v : List ℚ) : ℚ := (List.zipWith (fun a b => a * b) r v).sum

/-- Matrix-vector product: one dot product per matrix row. -/
def matVec (M : List (List ℚ)) (v : List ℚ) : List ℚ := M.map (fun row => dotL row v)

/-- The identity matrix `np.eye n` as a list of rows. -/
def eye (n : Nat) : List (List ℚ) :=
  (List.range n).map (fun i => (List.range n).map (fun j => if i = j then (1 : ℚ) else 0))

/-- Rectangular transpose (numpy `.T`). -/
def transposeM (M : List (List ℚ)) : List (List ℚ) :=
  (List.range (M.headD []).length).map (fun j => M.map (fun row => row.getD j 0))

/-- Scalar multiple `0.5 * M` of a matrix. -/
def matHalf (M : List (List ℚ)) : List (List ℚ) :=
  M.map (fun row => row.map (fun x => (1 / 2 : ℚ) * x))

lemma dotL_cons (a : ℚ) (r : List ℚ) (b : ℚ) (v : List ℚ) :
    dotL (a :: r) (b :: v) = a * b + dotL r v := by
  simp [dotL]

lemma dot_replicate_zero : ∀ (t : List ℚ) (m : Nat), dotL (List.replicate m 0) t = 0 := by
  intro t
  induction t with
  | nil => intro m; simp [dotL]
  | cons a t ih =>
    intro m
    cases m with
    | zero => simp [dotL]
    | succ m =>
      rw [List.replicate_succ, dotL_cons]
      rw [ih m]
      ring

lemma dot_unit : ∀ (v : List ℚ) (i : Nat), i < v.length →
    dotL ((List.range v.length).map (fun j => if i = j then (1 : ℚ) else 0)) v =
      v.getD i 0 := by
  intro v
  induction v with
  | nil => intro i hi; simp at hi
  | cons a t ih =>
    intro i hi
    rw [show (a :: t).length = t.length + 1 from rfl, List.range_succ_eq_map]
    rw [List.map_cons, List.map_map]
    cases i with
    | zero =>
      rw [if_pos rfl, dotL_cons]
      have hrow : (List.range t.length).map
          ((fun j => if (0 : Nat) = j then (1 : ℚ) else 0) ∘ Nat.succ) =
          List.replicate t.length 0 := by
        rw [show ((fun j => if (0 : Nat) = j then (1 : ℚ) else 0) ∘ Nat.succ) =
            (fun j => (0 : ℚ)) by funext j; simp]
        rw [List.map_const']
        simp
      rw [hrow, dot_replicate_zero]
      simp
    | succ k =>
      rw [if_neg (by omega), dotL_cons]
      have hk : k < t.length := by simpa using hi
      have hrow : (List.range t.length).map
          ((fun j => if k + 1 = j then (1 : ℚ) else 0) ∘ Nat.succ) =
          (List.range t.length).map (fun j => if k = j then (1 : ℚ) else 0) := by
        apply List.map_congr_left
        intro j hj
        simp only [Function.comp]
        congr 1
        exact propext ⟨fun hcontra => by omega, fun hcontra => by omega⟩
      rw [hrow, ih k hk]
      simp

lemma matVec_eye (n : Nat) (v : List ℚ) (h : v.length = n) : matVec (eye n) v = v := by
  subst h
  apply List.ext_getElem
  · simp [matVec, eye]
  · intro i h1 h2
    simp only [matVec, eye, List.getElem_map, List.getElem_range]
    have := dot_unit v i h2
    rw [this]
    exact List.getD_eq_getElem v 0 h2

/-- The problem data the transfer constructor reads from a level: the unknown
count `prob.nvars` and the grid spacing `prob.dx`
(src/implementations/transfer_classes/TransferMesh_1D.py:37-38). -/
structure Prob1D : Type where
  nvars : Nat
  dx : ℚ

/-- A level as seen by the transfer constructor (only `level.prob` is read). -/
structure TLevel : Type where
  prob : Prob1D

/-- Transfer parameters read by the constructor: `params['rorder']` and
`params['iorder']`. -/
structure TParams : Type where
  rorder : Nat
  iorder : Nat

/-- The transfer object of
src/implementations/transfer_classes/TransferMesh_1D.py.  `init_f`/`init_c`
are set by the parent class (pySDC/Transfer.py, not under src/) and are,
following this file's own docstring, the unknown counts of the fine and the
coarse level. -/
structure mesh_to_mesh_1d_dirichlet : Type where
  init_f : Nat
  init_c : Nat
  Rspace : List (List ℚ)
  Pspace : List (List ℚ)

/-- The grid `[(i + 1) * dx for i in range(nvars)]` built for a level
(TransferMesh_1D.py:37-38). -/
def grid1d (lv : TLevel) : List ℚ :=
  (List.range lv.prob.nvars).map (fun (i : Nat) => ((i : ℚ) + 1) * lv.prob.dx)

/-- Constructor `mesh_to_mesh_1d_dirichlet.__init__` (TransferMesh_1D.py:25-53):
when the unknown counts agree both operators are the identity; otherwise
`Rspace` is half the transpose of the interpolation matrix built at the
restriction order and `Pspace` is the interpolation matrix at the
interpolation order.  The external helper
`transfer_helper.interpolation_matrix_1d_dirichlet_null` (module not under
src/) is abstracted as the argument `imat`. -/
def mesh_to_mesh_1d_dirichlet_init (imat : List ℚ → List ℚ → Nat → List (List ℚ))
    (fine_level coarse_level : TLevel) (params : TParams) : mesh_to_mesh_1d_dirichlet :=
  { init_f := fine_level.prob.nvars
    init_c := coarse_level.prob.nvars
    Rspace :=
      if coarse_level.prob.nvars = fine_level.prob.nvars then eye coarse_level.prob.nvars
      else matHalf (transposeM (imat (grid1d fine_level) (grid1d coarse_level) params.rorder))
    Pspace :=
      if fine_level.prob.nvars = coarse_level.prob.nvars then eye fine_level.prob.nvars
      else imat (grid1d fine_level) (grid1d coarse_level) params.iorder }

/-- A field container handed to restrict/prolong: an instance of the problem's
solution container type `dtype_u`, of its right-hand-side container type
`dtype_f`, or of neither kind (`other`); containers carry their flat `values`
buffer. -/
inductive FField : Type where
  | u : List ℚ → FField
  | f : List ℚ → FField
  | other : ℚ → FField
deriving DecidableEq

/-- `restrict_space` (TransferMesh_1D.py:56-72): `u_coarse` starts as `None`;
an isinstance match constructs the matching container kind (the constructor's
size argument is immaterial, `.values` is overwritten) with values
`Rspace . F.values`; when neither isinstance matches, the initial `None` is
returned without raising. -/
def restrict_space (T : mesh_to_mesh_1d_dirichlet) : FField → Option FField
  | FField.u v => some (FField.u (matVec T.Rspace v))
  | FField.f v => some (FField.f (matVec T.Rspace v))
  | FField.other _ => none

/-- `prolong_space` (TransferMesh_1D.py:74-89): symmetric to `restrict_space`,
applying `Pspace`. -/
def prolong_space (T : mesh_to_mesh_1d_dirichlet) : FField → Option FField
  | FField.u v => some (FField.u (matVec T.Pspace v))
  | FField.f v => some (FField.f (matVec T.Pspace v))
  | FField.other _ => none

/-- Claim C4: for a coarse field of either container kind, `prolong_space`
returns a new container of the same kind with values `Pspace . field.values`;
when the interpolation helper returns one row per fine grid point, that buffer
has the fine level's unknown count (TransferMesh_1D.py:74-89). -/
theorem prolong_space_C4 (imat : List ℚ → List ℚ → Nat → List (List ℚ))
    (fine_level coarse_level : TLevel) (params : TParams)
    (T : mesh_to_mesh_1d_dirichlet)
    (himat : ∀ fg cg k, (imat fg cg k).length = fg.length)
    (hT : T = mesh_to_mesh_1d_dirichlet_init imat fine_level coarse_level params)
    (v : List ℚ) :
    prolong_space T (FField.u v) = some (FField.u (matVec T.Pspace v)) ∧
    prolong_space T (FField.f v) = some (FField.f (matVec T.Pspace v)) ∧
    (matVec T.Pspace v).length = T.init_f := by
  refine ⟨rfl, rfl, ?_⟩
  subst hT
  simp only [mesh_to_mesh_1d_dirichlet_init, matVec, List.length_map]
  by_cases he : fine_level.prob.nvars = coarse_level.prob.nvars
  · rw [if_pos he]
    simp [eye, he]
  · rw [if_neg he]
    rw [himat]
    simp only [grid1d, List.length_map, List.length_range]

/-- Claim C9: with equal unknown counts the constructed restriction and
prolongation operators are both the identity matrix, and restricting then
prolonging a solution or right-hand-side field returns the original values
unchanged (TransferMesh_1D.py:40-51). -/
theorem transfer_identity_C9 (imat : List ℚ → List ℚ → Nat → List (List ℚ))
    (fine_level coarse_level : TLevel) (params : TParams)
    (T : mesh_to_mesh_1d_dirichlet)
    (hn : fine_level.prob.nvars = coarse_level.prob.nvars)
    (hT : T = mesh_to_mesh_1d_dirichlet_init imat fine_level coarse_level params)
    (v : List ℚ) (hv : v.length = fine_level.prob.nvars) :
    T.Rspace = eye T.init_c ∧ T.Pspace = eye T.init_f ∧
    (restrict_space T (FField.u v)).bind (prolong_space T) = some (FField.u v) ∧
    (restrict_space T (FField.f v)).bind (prolong_space T) = some (FField.f v) := by
  subst hT
  have hR : (mesh_to_mesh_1d_dirichlet_init imat fine_level coarse_level params).Rspace =
      eye coarse_level.prob.nvars := by
    simp only [mesh_to_mesh_1d_dirichlet_init]
    rw [if_pos hn.symm]
  have hP : (mesh_to_mesh_1d_dirichlet_init imat fine_level coarse_level params).Pspace =
      eye fine_level.prob.nvars := by
    simp only [mesh_to_mesh_1d_dirichlet_init]
    rw [if_pos hn]
  have hvc : v.length = coarse_level.prob.nvars := by rw [hv, hn]
  have hRv : matVec (mesh_to_mesh_1d_dirichlet_init imat fine_level coarse_level params).Rspace
      v = v := by
    rw [hR]
    exact matVec_eye _ v hvc
  have hPv : matVec (mesh_to_mesh_1d_dirichlet_init imat fine_level coarse_level params).Pspace
      v = v := by
    rw [hP]
    exact matVec_eye _ v hv
  refine ⟨by rw [hR]; rfl, by rw [hP]; rfl, ?_, ?_⟩
  · simp only [restrict_space, Option.bind, prolong_space, hRv, hPv]
  · simp only [restrict_space, Option.bind, prolong_space, hRv, hPv]

/-- The interpolation helper used by the concrete witnesses: a zero matrix of
the correct fine-by-coarse shape. -/
def imat0 : List ℚ → List ℚ → Nat → List (List ℚ) :=
  fun fg cg _ => fg.map (fun _ => cg.map (fun _ => (0 : ℚ)))

/-- Fine level of the non-degenerate concrete transfer. -/
def fineL0 : TLevel := ⟨⟨4, 1 / 5⟩⟩

/-- Coarse level of the non-degenerate concrete transfer. -/
def coarseL0 : TLevel := ⟨⟨2, 1 / 3⟩⟩

/-- Concrete transfer parameters. -/
def tp0 : TParams := ⟨2, 2⟩

/-- A concrete non-degenerate transfer instance. -/
def T0 : mesh_to_mesh_1d_dirichlet := mesh_to_mesh_1d_dirichlet_init imat0 fineL0 coarseL0 tp0

/-- Counterexample to claim C5 as stated: on an input of neither container
kind `restrict_space` does not raise a type error at the call site; the
function runs to completion and silently returns the initial `None`
(TransferMesh_1D.py:64-72). -/
theorem restrict_space_none_cex : restrict_space T0 (FField.other 0) = none := rfl

/-- Amended claim C5: for every input that is neither an instance of the
solution container type nor of the right-hand-side container type,
`restrict_space` silently returns `None` (no container, and no error is
raised). -/
theorem restrict_space_none_amended (T : mesh_to_mesh_1d_dirichlet) (x : ℚ) :
    restrict_space T (FField.other x) = none := rfl

theorem prolong_space_C4_witness :
    prolong_space T0 (FField.u [1, 2]) = some (FField.u (matVec T0.Pspace [1, 2])) ∧
    (matVec T0.Pspace [1, 2]).length = T0.init_f :=
  ⟨(prolong_space_C4 imat0 fineL0 coarseL0 tp0 T0 (fun fg cg k => by simp [imat0]) rfl
      [1, 2]).1,
   (prolong_space_C4 imat0 fineL0 coarseL0 tp0 T0 (fun fg cg k => by simp [imat0]) rfl
      [1, 2]).2.2⟩

/-- Fine level of the degenerate (equal-size) concrete transfer. -/
def fineL1 : TLevel := ⟨⟨2, 1 / 3⟩⟩

/-- Coarse level of the degenerate (equal-size) concrete transfer. -/
def coarseL1 : TLevel := ⟨⟨2, 1 / 3⟩⟩

/-- A concrete transfer instance with equal unknown counts. -/
def T1 : mesh_to_mesh_1d_dirichlet := mesh_to_mesh_1d_dirichlet_init imat0 fineL1 coarseL1 tp0

theorem transfer_identity_C9_witness :
    (restrict_space T1 (FField.u [3, 5])).bind (prolong_space T1) = some (FField.u [3, 5]) :=
  (transfer_identity_C9 imat0 fineL1 coarseL1 tp0 T1 rfl rfl [3, 5] rfl).2.2.1

/-- The `prev`/`next` accessor state of a step: the private attributes
`__prev` and `__next` (src/pySDC/Step.py:68-69), both `None` initially. -/
structure StepLinks (β : Type) : Type where
  pPrev : Option β
  pNext : Option β

/-- Getter of the `prev` property (src/pySDC/Step.py:269-276): returns
`self.__prev`. -/
def prev_get {β : Type} (s : StepLinks β) : Option β := s.pPrev

/-- Setter of the `prev` property (src/pySDC/Step.py:279-286): assigns
`self.__prev`. -/
def prev_set {β : Type} (s : StepLinks β) (p : Option β) : StepLinks β := { s with pPrev := p }

/-- Getter of the `next` property: the source returns `self.__prev`
(src/pySDC/Step.py:288-295). -/
def next_get {β : Type} (s : StepLinks β) : Option β := s.pPrev

/-- Setter of the `next` property (src/pySDC/Step.py:297-304): assigns
`self.__next`. -/
def next_set {β : Type} (s : StepLinks β) (p : Option β) : StepLinks β := { s with pNext := p }

/-- Claim C7 evaluated on the code: the `prev` accessor pair round-trips, but
on a fresh step assigning `next` and reading it back yields the stored
`__prev` (`None`) instead of the assigned value, because the getter at
src/pySDC/Step.py:295 reads `self.__prev`; the attribute `__next` is written
and never read. -/
theorem next_getter_returns_prev_C7 :
    prev_get (prev_set (StepLinks.mk (none : Option Nat) none) (some 1)) = some 1 ∧
    next_get (next_set (StepLinks.mk (none : Option Nat) none) (some 2)) = none ∧
    next_get (next_set (StepLinks.mk (none : Option Nat) none) (some 2)) ≠ some 2 :=
  ⟨rfl, rfl, by decide⟩
